import Mathlib

/-!
Verification of the easy-bert wrapper (src/easybert/bert.py and
src/easybert/__main__.py).

The TensorFlow / tf-hub / BERT-tokenizer machinery is an opaque external
dependency of the repository; it is modelled by an `Engine` record of
abstract functions (graph construction, variable initialization, graph
execution, tokenizer lookup, saved-model serialization).  Everything the
wrapper itself does — session lifecycle, input marshaling, the reshape of
single-string results, save/load bookkeeping on a filesystem, the recursive
`_delete` helper, the CLI environment-variable scopes and the CLI input
guard — is embedded faithfully below.
-/

set_option autoImplicit false

namespace EasyBert

/-! ## Python string primitives used by bert.py (`str.strip`, `readline`) -/

/-- The characters Python 3's `str.strip()` removes: every Unicode
whitespace code point (ASCII 0x09–0x0D and 0x1C–0x20, NEL 0x85, NBSP 0xA0,
Ogham space 0x1680, the 0x2000–0x200A spaces, line/paragraph separators
0x2028/0x2029, 0x202F, 0x205F, and ideographic space 0x3000). -/
def isPyWhitespace (c : Char) : Bool :=
  let n := c.toNat
  (0x09 ≤ n && n ≤ 0x0d) || (0x1c ≤ n && n ≤ 0x20)
    || n = 0x85 || n = 0xa0 || n = 0x1680
    || (0x2000 ≤ n && n ≤ 0x200a)
    || n = 0x2028 || n = 0x2029 || n = 0x202f || n = 0x205f || n = 0x3000

/-- `str.strip()` on a list of characters: drop whitespace from both ends. -/
def pyStripList (l : List Char) : List Char :=
  ((l.dropWhile isPyWhitespace).reverse.dropWhile isPyWhitespace).reverse

/-- Python `str.strip()`. -/
def pyStrip (s : String) : String :=
  String.mk (pyStripList s.toList)

/-- `file.readline()` on the full contents: the first line, including its
terminating newline when present. -/
def readlineList (l : List Char) : List Char :=
  match l with
  | [] => []
  | c :: rest => if c = '\n' then [c] else c :: readlineList rest

/-- Python `readline` applied to a file's full contents. -/
def readline (s : String) : String :=
  String.mk (readlineList s.toList)

/-- The universal-newline translation a text-mode read (`open("r")`,
newline=None) applies before any `readline` split: `"\r\n"` and a lone
`"\r"` both become `"\n"`.  (Text-mode writing on POSIX, where
`os.linesep` is `"\n"`, writes characters unchanged, so only the read
side translates.) -/
def translateNewlines : List Char → List Char
  | [] => []
  | [c] => if c = '\r' then ['\n'] else [c]
  | c :: d :: rest =>
    if c = '\r' then
      if d = '\n' then '\n' :: translateNewlines rest
      else '\n' :: translateNewlines (d :: rest)
    else c :: translateNewlines (d :: rest)

/-- A text-mode read of a whole file: the contents with universal-newline
translation applied. -/
def universalNewlines (s : String) : String :=
  String.mk (translateNewlines s.toList)

/-! ## Filesystem model

A filesystem is a flat list of absolute paths (lists of name components)
paired with an entry: a file with string contents, or a directory.  This is
the state `Bert.save`, `Bert.load` and `_delete` act on. -/

/-- A filesystem path, as a list of name components. -/
abbrev FPath := List String

/-- A filesystem entry: a file with contents, or a directory. -/
inductive Entry where
  | file (contents : String)
  | dir
  deriving DecidableEq, Repr

/-- A filesystem: a flat list of path/entry pairs. -/
abbrev Fs := List (FPath × Entry)

/-- `Path.exists()`. -/
def pexists (fs : Fs) (p : FPath) : Bool :=
  fs.any (fun e => e.1 = p)

/-- `Path.is_dir()` (false when the path does not exist). -/
def isDirAt (fs : Fs) (p : FPath) : Bool :=
  fs.any (fun e => e.1 = p && e.2 = Entry.dir)

/-- The parent path (`Path.parent`, `[]` for the root). -/
def parentOf (p : FPath) : FPath := p.dropLast

/-- `Path.iterdir()`: the paths of the direct children of `p`. -/
def iterdir (fs : Fs) (p : FPath) : List FPath :=
  (fs.filter (fun e => parentOf e.1 = p && e.1 ≠ p)).map (fun e => e.1)

/-- `Path.unlink()`: removes a non-directory path; fails otherwise. -/
def unlink (fs : Fs) (p : FPath) : Except String Fs :=
  if pexists fs p && !isDirAt fs p then
    .ok (fs.filter (fun e => e.1 ≠ p))
  else
    .error "unlink: not an existing non-directory"

/-- `Path.rmdir()`: removes an empty directory; fails otherwise. -/
def rmdir (fs : Fs) (p : FPath) : Except String Fs :=
  if isDirAt fs p && (iterdir fs p).isEmpty then
    .ok (fs.filter (fun e => e.1 ≠ p))
  else
    .error "rmdir: not an existing empty directory"

/-- The body of bert.py's `_delete`, with explicit recursion fuel (the
recursion in the source descends one path level per call, so any fuel
larger than the longest path in the filesystem suffices; `_delete` below
supplies it). -/
def deleteFuel : Nat → Fs → FPath → Except String Fs
  | 0, _, _ => .error "recursion limit"
  | n + 1, fs, p =>
    if !isDirAt fs p then
      unlink fs p
    else do
      let fs1 ← (iterdir fs p).foldlM (fun a c => deleteFuel n a c) fs
      rmdir fs1 p

/-- One more than the length of the longest path in the filesystem. -/
def maxPathLen (fs : Fs) : Nat :=
  fs.foldr (fun e m => max e.1.length m) 0

/-- bert.py `_delete`: recursively deletes a path regardless of whether it
is a file, an empty directory, or a non-empty directory. -/
def _delete (fs : Fs) (p : FPath) : Except String Fs :=
  deleteFuel (maxPathLen fs + 1) fs p

/-- Well-formed filesystem: paths are distinct, and every strict non-root
ancestor of a recorded path (a proper initial segment of it) is itself
recorded as a directory. -/
def Wf (fs : Fs) : Prop :=
  (fs.map (fun e => e.1)).Nodup ∧
  ∀ e ∈ fs, ∀ q ∈ e.1.inits, q ≠ e.1 → q ≠ [] → (q, Entry.dir) ∈ fs

instance (fs : Fs) : Decidable (Wf fs) := by
  unfold Wf; infer_instance

/-- `path.open("w")` followed by writing `s`: truncates an existing file or
creates a new one; fails if the parent directory is missing or the target
is a directory. -/
def writeFile (fs : Fs) (q : FPath) (s : String) : Except String Fs :=
  if isDirAt fs (parentOf q) && !isDirAt fs q then
    if pexists fs q then
      .ok (fs.map (fun e => if e.1 = q then (q, Entry.file s) else e))
    else
      .ok (fs ++ [(q, Entry.file s)])
  else
    .error "open: no such file or directory"

/-- `path.open("r")` followed by reading everything: the contents of the
file at `q`; fails if `q` is absent or a directory. -/
def readFileAt (fs : Fs) (q : FPath) : Except String String :=
  match fs.find? (fun e => e.1 = q) with
  | some (_, Entry.file s) => .ok s
  | _ => .error "open: no such file or directory"

/-- The entries strictly below `p`, with `p` stripped off their paths (what
`tf.saved_model.load` reads back from a saved-model directory). -/
def relEntries (fs : Fs) (p : FPath) : List (FPath × Entry) :=
  (fs.filter (fun e => p.isPrefixOf e.1 && e.1 ≠ p)).map
    (fun e => (e.1.drop p.length, e.2))

/-! ## The Bert model handle (src/easybert/bert.py) -/

/-- A numpy array: a shape and flat data (element values abstracted to
`Int`; the graph's numeric output is opaque to the wrapper). -/
structure NDArray where
  shape : List Nat
  data : List Int
  deriving DecidableEq, Repr

/-- `numpy.ndarray.reshape`: reinterpret the flat data under a new shape. -/
def NDArray.reshape (a : NDArray) (s : List Nat) : NDArray :=
  { shape := s, data := a.data }

/-- The fixed-length integer features `convert_examples_to_features`
produces for one sequence. -/
structure InputFeatures where
  input_ids : List Int
  input_mask : List Int
  segment_ids : List Int
  deriving DecidableEq, Repr

/-- The argument of `Bert.embed`: a single string or a collection. -/
inductive Sequences where
  | single (s : String)
  | multi (l : List String)
  deriving DecidableEq, Repr

/-- The opaque external machinery (TensorFlow, tf-hub, the BERT tokenizer):
graph construction from a hub URL, the tokenizer a hub module carries,
feature conversion, variable initialization, deterministic graph execution,
and saved-model (de)serialization.  `G` is the type of computation graphs,
`V` of initialized variable states, `Tok` of tokenizers. -/
structure Engine (G V Tok : Type) where
  buildGraph : String → Nat → G
  hubTok : String → Tok
  features : Tok → Nat → String → InputFeatures
  initVars : G → V
  run : G → V → Bool → List InputFeatures → NDArray
  serialize : G → V → List (FPath × Entry)
  deserialize : List (FPath × Entry) → Option G
  maxLenOf : G → Nat

/-- The `Bert` handle state: the recorded source model (absent on a handle
produced by `Bert.load`, which never sets `_source_model`), the graph, the
optional live session (holding its initialized variable state), the
tokenizer, and the maximum sequence length. -/
structure Bert (G V Tok : Type) where
  source_model : Option String
  graph : G
  session : Option V
  tokenizer : Tok
  max_sequence_length : Nat

/-- `Bert.__init__(tf_hub_url, max_sequence_length)`. -/
def Bert.make {G V Tok : Type} (e : Engine G V Tok) (tf_hub_url : String)
    (max_sequence_length : Nat) : Bert G V Tok :=
  { source_model := some tf_hub_url
    graph := e.buildGraph tf_hub_url max_sequence_length
    session := none
    tokenizer := e.hubTok tf_hub_url
    max_sequence_length := max_sequence_length }

/-- `Bert.__enter__`: start a session only if none is active. -/
def Bert.enter {G V Tok : Type} (e : Engine G V Tok) (b : Bert G V Tok) :
    Bert G V Tok :=
  match b.session with
  | some _ => b
  | none => { b with session := some (e.initVars b.graph) }

/-- `Bert.__exit__`: close the session if one is open. -/
def Bert.exitCtx {G V Tok : Type} (b : Bert G V Tok) : Bert G V Tok :=
  match b.session with
  | some _ => { b with session := none }
  | none => b

/-- `Bert.embed(sequences, per_token)`: wrap a single string into a batch,
convert to features, run the graph (in the live session, or in a one-off
freshly initialized session), and drop the batch dimension for a single
string. -/
def Bert.embed {G V Tok : Type} (e : Engine G V Tok) (b : Bert G V Tok)
    (sequences : Sequences) (per_token : Bool) : NDArray :=
  let single_input : Bool := match sequences with
    | .single _ => true
    | .multi _ => false
  let seqs : List String := match sequences with
    | .single s => [s]
    | .multi l => l
  let input_features := seqs.map (e.features b.tokenizer b.max_sequence_length)
  let output := match b.session with
    | some v => e.run b.graph v per_token input_features
    | none => e.run b.graph (e.initVars b.graph) per_token input_features
  if single_input then output.reshape output.shape.tail else output

/-- The asset file name bert.py stores the source model URL in. -/
def sourceModelAssetFile : String := "source-model.txt"

/-- The saved-model entries `tf.saved_model.simple_save` writes, relative
to the target directory: serialized from the live session's variables, or
from a one-off freshly initialized session. -/
def Bert.bundleEntries {G V Tok : Type} (e : Engine G V Tok)
    (b : Bert G V Tok) : List (FPath × Entry) :=
  match b.session with
  | some v => e.serialize b.graph v
  | none => e.serialize b.graph (e.initVars b.graph)

/-- `Bert.save(path, overwrite)`: fail if the path exists and overwrite is
off; otherwise delete any existing content, write the saved-model bundle
(the directory itself plus the entries `serialize` produces, using the live
session's variables or a one-off initialization), then write the source
model URL, newline-terminated, into `assets/source-model.txt` (raising if
the handle has no recorded source, as a `Bert.load`-produced handle has
not). -/
def Bert.save {G V Tok : Type} (e : Engine G V Tok) (b : Bert G V Tok)
    (fs : Fs) (p : FPath) (overwrite : Bool) : Except String Fs := do
  let fs1 ←
    if pexists fs p then
      if !overwrite then
        throw "Model path already exists and overwrite was set to False"
      else
        _delete fs p
    else
      pure fs
  let fs2 := fs1 ++ [(p, Entry.dir)]
      ++ (Bert.bundleEntries e b).map (fun r => (p ++ r.1, r.2))
  match b.source_model with
  | none => throw "AttributeError: _source_model"
  | some src => writeFile fs2 (p ++ ["assets", sourceModelAssetFile]) (src ++ "\n")

/-- The filesystem a successful `Bert.save` leaves behind: everything that
was at or below the target path is gone, replaced by the saved-model
directory, the bundle entries, and the newline-terminated source-model
asset file. -/
def savedFs (fs : Fs) (p : FPath) (bundle : List (FPath × Entry))
    (src : String) : Fs :=
  fs.filter (fun x => !(p.isPrefixOf x.1)) ++ [(p, Entry.dir)]
    ++ bundle.map (fun r => (p ++ r.1, r.2))
    ++ [(p ++ ["assets", sourceModelAssetFile], Entry.file (src ++ "\n"))]

/-- The side-file read in `Bert.load`: open `assets/source-model.txt` in
text mode (which applies universal-newline translation), `readline()`,
`strip()`. -/
def loadSourceUrl (fs : Fs) (p : FPath) : Except String String := do
  let contents ← readFileAt fs (p ++ ["assets", sourceModelAssetFile])
  pure (pyStrip (readline (universalNewlines contents)))

/-- `Bert.load(path)`: deserialize the bundle, recover the hub URL from the
side file, re-derive the tokenizer from the hub, and take input/output
tensors (hence the maximum sequence length) from the loaded graph.  The
loaded handle has no session and no recorded source model. -/
def Bert.load {G V Tok : Type} (e : Engine G V Tok) (fs : Fs) (p : FPath) :
    Except String (Bert G V Tok) := do
  let g ← match e.deserialize (relEntries fs p) with
    | some g => pure g
    | none => throw "load: malformed saved model"
  let tf_hub_url ← loadSourceUrl fs p
  pure { source_model := none
         graph := g
         session := none
         tokenizer := e.hubTok tf_hub_url
         max_sequence_length := e.maxLenOf g }

/-! ## The CLI helpers (src/easybert/__main__.py) -/

/-- The two environment variables the CLI touches (`none` = unset). -/
structure Env where
  cuda : Option String
  tfLog : Option String
  deriving DecidableEq, Repr

/-- Python truthiness of an optional string (`None` and `""` are falsy). -/
def truthy (v : Option String) : Bool :=
  match v with
  | none => false
  | some s => s ≠ ""

/-- The `_gpu` context manager wrapped around a body that transforms the
environment and either returns normally or raises.  When `gpu` is false it
records the prior `CUDA_VISIBLE_DEVICES`, overrides it with `"-1"`, runs
the body, and — only after a normal return, the generator having no
`try/finally` — restores the prior value if it was truthy and deletes the
variable otherwise. -/
def _gpu {E A : Type} (gpu : Bool) (body : Env → Except E A × Env)
    (env : Env) : Except E A × Env :=
  if gpu then
    body env
  else
    let visible_devices := env.cuda
    let env1 := { env with cuda := some "-1" }
    let (r, env2) := body env1
    match r with
    | .ok a =>
      if truthy visible_devices then
        (.ok a, { env2 with cuda := visible_devices })
      else
        (.ok a, { env2 with cuda := none })
    | .error err => (.error err, env2)

/-- The `_errors_only` context manager: when `activate` is true it records
the prior `TF_CPP_MIN_LOG_LEVEL`, overrides it with `"2"`, runs the body,
and — only after a normal return — restores the truthy prior value or
deletes the variable. -/
def _errors_only {E A : Type} (activate : Bool) (body : Env → Except E A × Env)
    (env : Env) : Except E A × Env :=
  if !activate then
    body env
  else
    let log_level := env.tfLog
    let env1 := { env with tfLog := some "2" }
    let (r, env2) := body env1
    match r with
    | .ok a =>
      if truthy log_level then
        (.ok a, { env2 with tfLog := log_level })
      else
        (.ok a, { env2 with tfLog := none })
    | .error err => (.error err, env2)

/-- The observable outcome of the CLI `embed` subcommand: an early
`exit(code)` with a printed message, or a completed embedding printed to
the console or saved to a file. -/
inductive CliOutcome where
  | exited (message : String) (code : Nat)
  | printed (embeddings : NDArray)
  | savedTo (path : String) (embeddings : NDArray)
  deriving DecidableEq, Repr

/-- The `embed` subcommand body (`_embed` in `__main__.py`): validate that
exactly one of `--sequence` / `--input` was given (printing an error and
exiting with status 1 otherwise), gather the sequences (stripping each line
of an input file), load a local saved model or construct one from the hub,
embed, and print or save the result.  `fileLines` stands for reading the
input file's lines. -/
def _embed {G V Tok : Type} (e : Engine G V Tok)
    (loadModel : String → Bert G V Tok)
    (fileLines : String → List String)
    (sequence : Option String) (input : Option String)
    (output : Option String) (model : Option String)
    (tokens : Bool) (hub_model : String) (max_sequence_length : Nat) :
    CliOutcome :=
  let proceed : Sequences → CliOutcome := fun sequences =>
    let bert : Bert G V Tok := match model with
      | some mp => loadModel mp
      | none => Bert.make e hub_model max_sequence_length
    let embeddings := Bert.embed e bert sequences tokens
    match output with
    | some o => .savedTo o embeddings
    | none => .printed embeddings
  match sequence, input with
  | none, none =>
    .exited "Error: Missing option \"-s\" / \"--sequence\" or \"-i\" / \"--input\". Please include a sequence or input file of sequences to embed." 1
  | some _, some _ =>
    .exited "Error: Redundant options \"-s\" / \"--sequence\" and \"-i\" / \"--input\". Only one of these options should be provided." 1
  | some s, none => proceed (.single s)
  | none, some i => proceed (.multi ((fileLines i).map pyStrip))

/-! ## Concrete engine instances (used to evaluate the theorems) -/

/-- A small computable engine: graphs are their maximum sequence length,
tokenizers are hub URLs, features and outputs depend on the tokenizer, the
bundle stores the graph in `saved_model.pb`. -/
def engine0 : Engine Nat Unit String where
  buildGraph := fun _ m => m
  hubTok := fun u => u
  features := fun tok _ s => ⟨[Int.ofNat (tok.length + s.length)], [1], [0]⟩
  initVars := fun _ => ()
  run := fun g _ pt fs =>
    ⟨[fs.length, g], fs.flatMap (fun f => f.input_ids) ++ [if pt then 1 else 0]⟩
  serialize := fun g _ =>
    [(["assets"], Entry.dir),
     (["saved_model.pb"], Entry.file (String.mk (List.replicate g 'g')))]
  deserialize := fun l =>
    match l.find? (fun r => r.1 = ["saved_model.pb"]) with
    | some (_, Entry.file s) => some s.toList.length
    | _ => none
  maxLenOf := fun g => g

/-- A concrete handle with an active session, for evaluating the session
lifecycle claims. -/
def bertActive : Bert Nat Unit String :=
  { source_model := some "u", graph := 4, session := some (),
    tokenizer := "u", max_sequence_length := 4 }

/-! ## General lemmas -/

theorem head_one_cons {l : List Nat} (h : l.head? = some 1) : l = 1 :: l.tail := by
  cases l with
  | nil => simp at h
  | cons a t => simp at h; simp [h]

/-! ## Claims about the session lifecycle and embed -/

/-- C9: a handle holds at most one live execution context; `__enter__` on
an active session keeps it unchanged, `__exit__` with no session is a
no-op, and after `__exit__` the session field is always `None`. -/
theorem claim_C9 {G V Tok : Type} (e : Engine G V Tok) (b : Bert G V Tok) :
    (∀ v, b.session = some v → Bert.enter e b = b) ∧
    (b.session = none → Bert.exitCtx b = b) ∧
    (Bert.exitCtx b).session = none := by
  refine ⟨fun v hv => ?_, fun hn => ?_, ?_⟩
  · unfold Bert.enter; rw [hv]
  · unfold Bert.exitCtx; rw [hn]
  · unfold Bert.exitCtx
    cases hb : b.session with
    | none => simpa using hb
    | some v => simp

/-- Witness for C9 at a concrete handle with an active session. -/
theorem claim_C9_witness :
    Bert.enter engine0 bertActive = bertActive ∧
    (Bert.exitCtx bertActive).session = none := by
  constructor
  · exact (claim_C9 engine0 bertActive).1 () rfl
  · exact (claim_C9 engine0 bertActive).2.2

/-- C2: embedding inside a scoped session entered via `__enter__` and
embedding with no active session (one-off context) yield identical
results, for every input and per_token flag. -/
theorem claim_C2 {G V Tok : Type} (e : Engine G V Tok) (b : Bert G V Tok)
    (h : b.session = none) (s : Sequences) (pt : Bool) :
    Bert.embed e (Bert.enter e b) s pt = Bert.embed e b s pt := by
  have he : Bert.enter e b = { b with session := some (e.initVars b.graph) } := by
    unfold Bert.enter; rw [h]
  unfold Bert.embed
  rw [he, h]

/-- Witness for C2 at a concrete sessionless handle. -/
theorem claim_C2_witness :
    Bert.embed engine0 (Bert.enter engine0 (Bert.make engine0 "u" 4))
        (Sequences.single "hi") true
      = Bert.embed engine0 (Bert.make engine0 "u" 4)
        (Sequences.single "hi") true :=
  claim_C2 engine0 (Bert.make engine0 "u" 4) rfl (Sequences.single "hi") true

/-- C1: embedding a single string and embedding the one-element collection
containing it produce the same values; the single-string result is the
batch result with its leading batch dimension (of size 1) dropped.  The
hypothesis states that the engine's output batch dimension equals the
number of input feature rows. -/
theorem claim_C1 {G V Tok : Type} (e : Engine G V Tok) (b : Bert G V Tok)
    (s : String) (pt : Bool)
    (h : ∀ v fs, (e.run b.graph v pt fs).shape.head? = some fs.length) :
    (Bert.embed e b (Sequences.single s) pt).data
      = (Bert.embed e b (Sequences.multi [s]) pt).data ∧
    (Bert.embed e b (Sequences.multi [s]) pt).shape
      = 1 :: (Bert.embed e b (Sequences.single s) pt).shape := by
  unfold Bert.embed
  cases hb : b.session with
  | none =>
    refine ⟨rfl, ?_⟩
    exact head_one_cons (h (e.initVars b.graph)
      [e.features b.tokenizer b.max_sequence_length s])
  | some v =>
    refine ⟨rfl, ?_⟩
    exact head_one_cons (h v [e.features b.tokenizer b.max_sequence_length s])

/-- Witness for C1 at a concrete engine and input. -/
theorem claim_C1_witness :
    (Bert.embed engine0 (Bert.make engine0 "u" 4) (Sequences.single "hi") false).data
      = (Bert.embed engine0 (Bert.make engine0 "u" 4) (Sequences.multi ["hi"]) false).data ∧
    (Bert.embed engine0 (Bert.make engine0 "u" 4) (Sequences.multi ["hi"]) false).shape
      = 1 :: (Bert.embed engine0 (Bert.make engine0 "u" 4) (Sequences.single "hi") false).shape :=
  claim_C1 engine0 (Bert.make engine0 "u" 4) "hi" false (fun _ _ => rfl)

/-! ## Claims about the CLI -/

/-- C8: when neither or both of the `--sequence` / `--input` options are
given, the CLI `embed` subcommand exits with status 1 and a message; the
outcome is an early exit for every model loader and engine, so no model is
loaded and nothing is embedded. -/
theorem claim_C8 {G V Tok : Type} (e : Engine G V Tok)
    (loadModel : String → Bert G V Tok) (fileLines : String → List String)
    (sequence input output model : Option String)
    (tokens : Bool) (hub_model : String) (max_sequence_length : Nat)
    (h : (sequence = none ∧ input = none) ∨
         (∃ s i, sequence = some s ∧ input = some i)) :
    ∃ msg, _embed e loadModel fileLines sequence input output model
        tokens hub_model max_sequence_length = CliOutcome.exited msg 1 := by
  rcases h with ⟨hs, hi⟩ | ⟨s, i, hs, hi⟩ <;> subst hs <;> subst hi <;>
    exact ⟨_, rfl⟩

/-- Witness for C8: both options missing at a concrete instantiation. -/
theorem claim_C8_witness :
    ∃ msg, _embed engine0 (fun _ => Bert.make engine0 "u" 4) (fun _ => [])
        none none none none false "u" 4 = CliOutcome.exited msg 1 :=
  claim_C8 engine0 (fun _ => Bert.make engine0 "u" 4) (fun _ => [])
    none none none none false "u" 4 (Or.inl ⟨rfl, rfl⟩)

/-! ## Claims about save -/

/-- C4: saving to an existing path with overwrite disabled fails with the
already-exists error; in this pure model the returned error carries no
modified filesystem, so the existing path and its contents are untouched
(no partial write, no deletion). -/
theorem claim_C4 {G V Tok : Type} (e : Engine G V Tok) (b : Bert G V Tok)
    (fs : Fs) (p : FPath) (h : pexists fs p = true) :
    Bert.save e b fs p false
      = .error "Model path already exists and overwrite was set to False" := by
  unfold Bert.save
  simp [h, throw, throwThe, MonadExcept.throw, Bind.bind, Except.bind]

/-- Witness for C4 at a concrete filesystem and path. -/
theorem claim_C4_witness :
    Bert.save engine0 (Bert.make engine0 "u" 4) [(["m"], Entry.dir)] ["m"] false
      = .error "Model path already exists and overwrite was set to False" :=
  claim_C4 engine0 (Bert.make engine0 "u" 4) [(["m"], Entry.dir)] ["m"] rfl

/-! ## Claims about the environment-variable scopes -/

/-- Counterexample to C7 as stated: (a) with prior `CUDA_VISIBLE_DEVICES`
equal to the empty string and a normally returning command, `_gpu` deletes
the variable instead of restoring the empty value (the restore branch
tests Python truthiness, not presence); (b) with no prior value and a
failing command, the `"-1"` override is left in place rather than being
unset, because the context managers have no try/finally around `yield`. -/
theorem claim_C7_cx :
    (_gpu (E := Nat) (A := Nat) false (fun env => (Except.ok 0, env))
        { cuda := some "", tfLog := none }).2.cuda = none ∧
    (_gpu (E := Nat) (A := Nat) false (fun env => (Except.error 0, env))
        { cuda := none, tfLog := none }).2.cuda = some "-1" := by
  constructor <;> rfl

/-- C7 amended: when inactive, neither helper touches the environment;
on a normal return of the wrapped command, each helper restores its
variable to the prior value if that value was truthy (present and
non-empty) and unsets it otherwise (so a prior empty string is unset, not
restored); when the wrapped command fails, no restoration happens at all —
the override is left as the failing command left it. -/
theorem claim_C7_amended {E A : Type} (env : Env) (f : Env → Except E A × Env) :
    (_gpu true f env = f env) ∧
    (_errors_only false f env = f env) ∧
    (∀ a env2, f { env with cuda := some "-1" } = (.ok a, env2) →
      _gpu false f env
        = (.ok a, { env2 with
            cuda := if truthy env.cuda then env.cuda else none })) ∧
    (∀ err env2, f { env with cuda := some "-1" } = (.error err, env2) →
      _gpu false f env = (.error err, env2)) ∧
    (∀ a env2, f { env with tfLog := some "2" } = (.ok a, env2) →
      _errors_only true f env
        = (.ok a, { env2 with
            tfLog := if truthy env.tfLog then env.tfLog else none })) ∧
    (∀ err env2, f { env with tfLog := some "2" } = (.error err, env2) →
      _errors_only true f env = (.error err, env2)) := by
  refine ⟨rfl, rfl, ?_, ?_, ?_, ?_⟩
  · intro a env2 hf
    unfold _gpu
    simp only [Bool.false_eq_true, if_false]
    rw [hf]
    by_cases ht : truthy env.cuda <;> simp [ht]
  · intro err env2 hf
    unfold _gpu
    simp only [Bool.false_eq_true, if_false]
    rw [hf]
  · intro a env2 hf
    unfold _errors_only
    simp only [Bool.not_true, Bool.false_eq_true, if_false]
    rw [hf]
    by_cases ht : truthy env.tfLog <;> simp [ht]
  · intro err env2 hf
    unfold _errors_only
    simp only [Bool.not_true, Bool.false_eq_true, if_false]
    rw [hf]

/-- Witness for C7 amended: a non-empty prior value is restored on normal
return; a failing command leaves the override in place. -/
theorem claim_C7_witness :
    _gpu (E := Nat) (A := Nat) false (fun env => (Except.ok 0, env))
        { cuda := some "x", tfLog := none }
      = (Except.ok 0, { cuda := some "x", tfLog := none }) ∧
    _errors_only (E := Nat) (A := Nat) true (fun env => (Except.error 1, env))
        { cuda := none, tfLog := some "3" }
      = (Except.error 1, { cuda := none, tfLog := some "2" }) := by
  constructor
  · have h := (claim_C7_amended (E := Nat) (A := Nat)
      { cuda := some "x", tfLog := none }
      (fun env => (Except.ok 0, env))).2.2.1 0
      { cuda := some "-1", tfLog := none } rfl
    simpa using h
  · have h := (claim_C7_amended (E := Nat) (A := Nat)
      { cuda := none, tfLog := some "3" }
      (fun env => (Except.error 1, env))).2.2.2.2.2 1
      { cuda := none, tfLog := some "2" } rfl
    simpa using h

/-! ## Filesystem lemmas -/

theorem pexists_iff {fs : Fs} {p : FPath} :
    pexists fs p = true ↔ ∃ en, (p, en) ∈ fs := by
  unfold pexists
  rw [List.any_eq_true]
  constructor
  · rintro ⟨x, hx, hxp⟩
    simp only [decide_eq_true_eq] at hxp
    exact ⟨x.2, by rwa [← hxp, Prod.mk.eta]⟩
  · rintro ⟨en, hen⟩
    exact ⟨(p, en), hen, by simp⟩

theorem isDirAt_iff {fs : Fs} {p : FPath} :
    isDirAt fs p = true ↔ (p, Entry.dir) ∈ fs := by
  unfold isDirAt
  rw [List.any_eq_true]
  constructor
  · rintro ⟨x, hx, hxp⟩
    simp only [Bool.and_eq_true, decide_eq_true_eq] at hxp
    rwa [← hxp.1, ← hxp.2, Prod.mk.eta]
  · rintro hd
    exact ⟨(p, Entry.dir), hd, by simp⟩

theorem entry_unique {fs : Fs} (h : (fs.map (fun x => x.1)).Nodup)
    {p : FPath} {a b : Entry} (ha : (p, a) ∈ fs) (hb : (p, b) ∈ fs) :
    a = b := by
  have := List.inj_on_of_nodup_map h ha hb rfl
  exact congrArg Prod.snd this

theorem mem_iterdir {fs : Fs} {p q : FPath} :
    q ∈ iterdir fs p ↔ ∃ en, (q, en) ∈ fs ∧ parentOf q = p ∧ q ≠ p := by
  unfold iterdir
  rw [List.mem_map]
  constructor
  · rintro ⟨x, hx, rfl⟩
    rw [List.mem_filter] at hx
    obtain ⟨hmem, hcond⟩ := hx
    simp only [Bool.and_eq_true, decide_eq_true_eq] at hcond
    exact ⟨x.2, by rwa [Prod.mk.eta], hcond.1, hcond.2⟩
  · rintro ⟨en, hen, hpar, hne⟩
    exact ⟨(q, en), List.mem_filter.2 ⟨hen, by simp [hpar, hne]⟩, rfl⟩

theorem child_shape {p q : FPath} (hpar : parentOf q = p) (hne : q ≠ p) :
    q.length = p.length + 1 ∧ p <+: q ∧ q ≠ [] := by
  have hq : q ≠ [] := by
    rintro rfl
    exact hne (by simpa [parentOf] using hpar.symm)
  have hdec : q.dropLast ++ [q.getLast hq] = q := List.dropLast_append_getLast hq
  unfold parentOf at hpar
  rw [hpar] at hdec
  refine ⟨?_, ⟨[q.getLast hq], hdec⟩, hq⟩
  rw [← hdec, List.length_append]
  simp

theorem wf_filter_cone {fs : Fs} {c : FPath} (h : Wf fs) :
    Wf (fs.filter (fun x => !(c.isPrefixOf x.1))) := by
  obtain ⟨hnod, hcl⟩ := h
  constructor
  · exact hnod.sublist ((List.filter_sublist fs).map (fun x => x.1))
  · intro e he q hq hqe hq0
    rw [List.mem_filter] at he
    obtain ⟨he, hkeep⟩ := he
    refine List.mem_filter.2 ⟨hcl e he q hq hqe hq0, ?_⟩
    simp only [Bool.not_eq_true'] at hkeep ⊢
    rw [List.mem_inits] at hq
    cases hcq : c.isPrefixOf q
    · rfl
    · exfalso
      rw [List.isPrefixOf_iff_prefix] at hcq
      have : c.isPrefixOf e.1 = true :=
        List.isPrefixOf_iff_prefix.2 (hcq.trans hq)
      rw [this] at hkeep
      exact Bool.noConfusion hkeep

theorem iterdir_nodup {fs : Fs} {p : FPath}
    (h : (fs.map (fun x => x.1)).Nodup) : (iterdir fs p).Nodup := by
  unfold iterdir
  exact h.sublist ((List.filter_sublist fs).map (fun x => x.1))

theorem isPrefixOf_false_of_not {p q : FPath} (h : ¬ p <+: q) :
    p.isPrefixOf q = false := by
  cases hh : p.isPrefixOf q
  · rfl
  · exact absurd (List.isPrefixOf_iff_prefix.1 hh) h

/-- On a well-formed filesystem, with fuel at least the depth of the cone
below `p`, `deleteFuel` succeeds and removes exactly `p` and every path
below it. -/
theorem deleteFuel_ok :
    ∀ (n : Nat) (fs : Fs) (p : FPath), Wf fs → p ≠ [] →
      pexists fs p = true →
      (∀ x ∈ fs, p <+: x.1 → x.1.length < p.length + n) →
      deleteFuel n fs p = .ok (fs.filter (fun x => !(p.isPrefixOf x.1))) := by
  intro n
  induction n with
  | zero =>
    intro fs p hwf hp hex hb
    exfalso
    obtain ⟨en, hen⟩ := pexists_iff.1 hex
    have h2 : p.length < p.length + 0 := hb (p, en) hen List.prefix_rfl
    omega
  | succ n ih =>
    intro fs p hwf hp hex hb
    obtain ⟨en, hen⟩ := pexists_iff.1 hex
    by_cases hdir : isDirAt fs p = true
    · -- directory branch: fold over the children, then rmdir
      have hchild : ∀ c ∈ iterdir fs p,
          c.length = p.length + 1 ∧ p <+: c ∧ c ≠ [] ∧ pexists fs c = true := by
        intro c hc
        obtain ⟨en', hen', hpar, hne⟩ := mem_iterdir.1 hc
        obtain ⟨hlen, hpref, hne0⟩ := child_shape hpar hne
        exact ⟨hlen, hpref, hne0, pexists_iff.2 ⟨en', hen'⟩⟩
      have fold : ∀ (cs : List FPath) (fs' : Fs), Wf fs' → cs.Nodup →
          (∀ c ∈ cs, ∀ c' ∈ cs, c ≠ c' → ¬ c <+: c') →
          (∀ c ∈ cs, c ≠ [] ∧ pexists fs' c = true) →
          (∀ c ∈ cs, ∀ x ∈ fs', c <+: x.1 → x.1.length < c.length + n) →
          List.foldlM (fun a c => deleteFuel n a c) fs' cs
            = .ok (fs'.filter (fun x => cs.all (fun c => !(c.isPrefixOf x.1)))) := by
        intro cs
        induction cs with
        | nil =>
          intro fs' _ _ _ _ _
          simp only [List.foldlM_nil, List.all_nil, List.filter_true]
          rfl
        | cons c cs' ihc =>
          intro fs' hwf' hnod hpw hexs hbs
          have hc0 := hexs c (List.mem_cons_self c cs')
          have h1 : deleteFuel n fs' c
              = .ok (fs'.filter (fun x => !(c.isPrefixOf x.1))) :=
            ih fs' c hwf' hc0.1 hc0.2 (hbs c (List.mem_cons_self c cs'))
          rw [List.foldlM_cons, h1]
          have hbind :
              (Except.ok (ε := String) (fs'.filter (fun x => !(c.isPrefixOf x.1)))
                  >>= fun a => List.foldlM (fun a c => deleteFuel n a c) a cs')
                = List.foldlM (fun a c => deleteFuel n a c)
                    (fs'.filter (fun x => !(c.isPrefixOf x.1))) cs' := rfl
          rw [hbind]
          have hcnot : c ∉ cs' := (List.nodup_cons.1 hnod).1
          have hpw' : ∀ a ∈ cs', ∀ b ∈ cs', a ≠ b → ¬ a <+: b :=
            fun a ha b hbm hab => hpw a (List.mem_cons_of_mem c ha) b
              (List.mem_cons_of_mem c hbm) hab
          have hexs' : ∀ c' ∈ cs', c' ≠ [] ∧
              pexists (fs'.filter (fun x => !(c.isPrefixOf x.1))) c' = true := by
            intro c' hc'
            refine ⟨(hexs c' (List.mem_cons_of_mem c hc')).1, ?_⟩
            obtain ⟨en', hen'⟩ :=
              pexists_iff.1 (hexs c' (List.mem_cons_of_mem c hc')).2
            refine pexists_iff.2 ⟨en', List.mem_filter.2 ⟨hen', ?_⟩⟩
            have hne : c ≠ c' := fun h => hcnot (h ▸ hc')
            have hnp : ¬ c <+: c' := hpw c (List.mem_cons_self c cs') c'
              (List.mem_cons_of_mem c hc') hne
            rw [isPrefixOf_false_of_not hnp]
            rfl
          have hbs' : ∀ c' ∈ cs',
              ∀ x ∈ fs'.filter (fun x => !(c.isPrefixOf x.1)),
                c' <+: x.1 → x.1.length < c'.length + n :=
            fun c' hc' x hx hcx => hbs c' (List.mem_cons_of_mem c hc') x
              (List.mem_filter.1 hx).1 hcx
          rw [ihc (fs'.filter (fun x => !(c.isPrefixOf x.1)))
            (wf_filter_cone hwf') (List.nodup_cons.1 hnod).2 hpw' hexs' hbs']
          rw [List.filter_filter]
          congr 1
          apply List.filter_congr
          intro x _
          rw [List.all_cons, Bool.and_comm]
      -- assemble the branch
      have hnodcs : (iterdir fs p).Nodup := iterdir_nodup hwf.1
      have hpwcs : ∀ c ∈ iterdir fs p, ∀ c' ∈ iterdir fs p,
          c ≠ c' → ¬ c <+: c' := by
        intro c hc c' hc' hne hcp
        have h1 := (hchild c hc).1
        have h2 := (hchild c' hc').1
        exact hne (hcp.eq_of_length (by omega))
      have hexcs : ∀ c ∈ iterdir fs p, c ≠ [] ∧ pexists fs c = true :=
        fun c hc => ⟨(hchild c hc).2.2.1, (hchild c hc).2.2.2⟩
      have hbcs : ∀ c ∈ iterdir fs p, ∀ x ∈ fs,
          c <+: x.1 → x.1.length < c.length + n := by
        intro c hc x hx hcx
        have h1 := hb x hx ((hchild c hc).2.1.trans hcx)
        have h2 := (hchild c hc).1
        omega
      simp only [deleteFuel]
      rw [hdir]
      simp only [Bool.not_true, Bool.false_eq_true, if_false]
      rw [fold (iterdir fs p) fs hwf hnodcs hpwcs hexcs hbcs]
      have hbind2 :
          (Except.ok (ε := String)
              (fs.filter (fun x =>
                (iterdir fs p).all (fun c => !(c.isPrefixOf x.1))))
            >>= fun fs1 => rmdir fs1 p)
          = rmdir (fs.filter (fun x =>
              (iterdir fs p).all (fun c => !(c.isPrefixOf x.1)))) p := rfl
      rw [hbind2]
      have hdir1 : isDirAt (fs.filter (fun x =>
          (iterdir fs p).all (fun c => !(c.isPrefixOf x.1)))) p = true := by
        refine isDirAt_iff.2 (List.mem_filter.2 ⟨isDirAt_iff.1 hdir, ?_⟩)
        rw [List.all_eq_true]
        intro c hc
        have hlen := (hchild c hc).1
        have : ¬ c <+: p := fun hcp => by
          have := hcp.length_le
          omega
        rw [isPrefixOf_false_of_not this]
        rfl
      have hiter1 : iterdir (fs.filter (fun x =>
          (iterdir fs p).all (fun c => !(c.isPrefixOf x.1)))) p = [] := by
        unfold iterdir
        rw [List.map_eq_nil_iff, List.filter_eq_nil_iff]
        intro x hx hcond
        simp only [Bool.and_eq_true, decide_eq_true_eq] at hcond
        obtain ⟨hxfs, hall⟩ := List.mem_filter.1 hx
        have hxc : x.1 ∈ iterdir fs p :=
          mem_iterdir.2 ⟨x.2, by rwa [Prod.mk.eta], hcond.1, hcond.2⟩
        have h2 := List.all_eq_true.1 hall x.1 hxc
        rw [List.isPrefixOf_iff_prefix.2 List.prefix_rfl] at h2
        exact Bool.noConfusion h2
      unfold rmdir
      rw [hdir1, hiter1]
      simp only [List.isEmpty_nil, Bool.and_true, if_true]
      congr 1
      rw [List.filter_filter]
      apply List.filter_congr
      intro x hx
      by_cases hpre : p <+: x.1
      · rw [List.isPrefixOf_iff_prefix.2 hpre]
        by_cases hxp : x.1 = p
        · simp [hxp]
        · obtain ⟨t, ht⟩ := hpre
          have htne : t ≠ [] := by
            rintro rfl
            rw [List.append_nil] at ht
            exact hxp ht.symm
          obtain ⟨d, rest, rfl⟩ := List.exists_cons_of_ne_nil htne
          have hc0pre : (p ++ [d]) <+: x.1 :=
            ⟨rest, by rw [List.append_assoc]; simpa using ht⟩
          obtain ⟨en0, hen0⟩ : ∃ en0, (p ++ [d], en0) ∈ fs := by
            by_cases hcx : p ++ [d] = x.1
            · exact ⟨x.2, by rw [hcx, Prod.mk.eta]; exact hx⟩
            · exact ⟨Entry.dir, hwf.2 x hx (p ++ [d])
                ((List.mem_inits _ _).2 hc0pre) hcx (by simp)⟩
          have hc0mem : (p ++ [d]) ∈ iterdir fs p := by
            refine mem_iterdir.2 ⟨en0, hen0, ?_, ?_⟩
            · unfold parentOf
              exact List.dropLast_concat
            · intro hh
              have := congrArg List.length hh
              simp at this
          cases hall : (iterdir fs p).all (fun c => !(c.isPrefixOf x.1))
          · simp
          · exfalso
            have h2 := List.all_eq_true.1 hall _ hc0mem
            rw [List.isPrefixOf_iff_prefix.2 hc0pre] at h2
            exact Bool.noConfusion h2
      · have h1 : x.1 ≠ p := fun hh => hpre (hh ▸ List.prefix_rfl)
        have hall : (iterdir fs p).all (fun c => !(c.isPrefixOf x.1)) = true := by
          rw [List.all_eq_true]
          intro c hc
          have : ¬ c <+: x.1 :=
            fun hcx => hpre ((hchild c hc).2.1.trans hcx)
          rw [isPrefixOf_false_of_not this]
          rfl
        rw [hall, isPrefixOf_false_of_not hpre]
        simp [h1]
    · -- non-directory: unlink
      rw [Bool.not_eq_true] at hdir
      simp only [deleteFuel]
      rw [hdir]
      simp only [Bool.not_false, if_true]
      unfold unlink
      rw [hex, hdir]
      simp only [Bool.not_false, Bool.and_true, if_true]
      congr 1
      apply List.filter_congr
      intro x hx
      by_cases hpre : p <+: x.1
      · have hxp : x.1 = p := by
          by_contra hxne
          have hcl := hwf.2 x hx p ((List.mem_inits _ _).2 hpre)
            (fun h => hxne h.symm) hp
          have hdd : isDirAt fs p = true := isDirAt_iff.2 hcl
          rw [hdir] at hdd
          exact Bool.noConfusion hdd
        rw [List.isPrefixOf_iff_prefix.2 hpre]
        simp [hxp]
      · have h1 : x.1 ≠ p := fun hh => hpre (hh ▸ List.prefix_rfl)
        rw [isPrefixOf_false_of_not hpre]
        simp [h1]

theorem length_le_maxPathLen {fs : Fs} {x : FPath × Entry} (hx : x ∈ fs) :
    x.1.length ≤ maxPathLen fs := by
  induction fs with
  | nil => cases hx
  | cons y ys ihy =>
    unfold maxPathLen at *
    rcases List.mem_cons.1 hx with rfl | hmem
    · simp
    · simp only [List.foldr_cons]
      exact le_trans (ihy hmem) (le_max_right _ _)

/-- `_delete` on a well-formed filesystem succeeds and removes exactly the
target path and everything below it. -/
theorem delete_ok {fs : Fs} {p : FPath} (hwf : Wf fs) (hp : p ≠ [])
    (hex : pexists fs p = true) :
    _delete fs p = .ok (fs.filter (fun x => !(p.isPrefixOf x.1))) := by
  unfold _delete
  refine deleteFuel_ok (maxPathLen fs + 1) fs p hwf hp hex ?_
  intro x hx _
  have := length_le_maxPathLen hx
  omega

/-- C10: on any finite well-formed directory tree, the recursive helper
`_delete` terminates (the fuelled recursion succeeds rather than running
out, and the fuel argument bounds the recursion depth of the source's
structural recursion on the tree) and on return the deleted path no longer
exists. -/
theorem claim_C10 (fs : Fs) (p : FPath) (hwf : Wf fs) (hp : p ≠ [])
    (hex : pexists fs p = true) :
    ∃ fs', _delete fs p = .ok fs' ∧ pexists fs' p = false := by
  refine ⟨_, delete_ok hwf hp hex, ?_⟩
  rw [← Bool.not_eq_true, pexists_iff]
  rintro ⟨en, hen⟩
  obtain ⟨_, hkeep⟩ := List.mem_filter.1 hen
  rw [List.isPrefixOf_iff_prefix.2 List.prefix_rfl] at hkeep
  exact Bool.noConfusion hkeep

/-- Witness for C10: deleting a non-empty directory from a concrete
well-formed filesystem. -/
theorem claim_C10_witness :
    ∃ fs', _delete
        [(["a"], Entry.dir), (["a", "b"], Entry.dir),
         (["a", "b", "c"], Entry.file "z"), (["a", "d"], Entry.file "w"),
         (["e"], Entry.file "q")] ["a"]
      = .ok fs' ∧ pexists fs' ["a"] = false :=
  claim_C10
    [(["a"], Entry.dir), (["a", "b"], Entry.dir),
     (["a", "b", "c"], Entry.file "z"), (["a", "d"], Entry.file "w"),
     (["e"], Entry.file "q")] ["a"]
    (by decide) (by decide) (by decide)

theorem exbind_ok {α β : Type} (a : α) (f : α → Except String β) :
    (Except.ok a >>= f) = f a := rfl

theorem isDirAt_pexists {fs : Fs} {q : FPath} (h : isDirAt fs q = true) :
    pexists fs q = true :=
  pexists_iff.2 ⟨Entry.dir, isDirAt_iff.1 h⟩

theorem not_pexists_isDirAt {fs : Fs} {q : FPath} (h : pexists fs q = false) :
    isDirAt fs q = false := by
  cases hd : isDirAt fs q
  · rfl
  · rw [isDirAt_pexists hd] at h
    exact Bool.noConfusion h

/-- On a well-formed filesystem, nothing lies at or below a non-existing
path, so the cone filter is the identity. -/
theorem filter_no_cone {fs : Fs} {p : FPath} (hwf : Wf fs) (hp : p ≠ [])
    (hnex : pexists fs p = false) :
    fs.filter (fun x => !(p.isPrefixOf x.1)) = fs := by
  apply List.filter_eq_self.2
  intro x hx
  cases hpre : p.isPrefixOf x.1
  · rfl
  · exfalso
    have hpx : p <+: x.1 := List.isPrefixOf_iff_prefix.1 hpre
    by_cases hxp : x.1 = p
    · have : pexists fs p = true := pexists_iff.2 ⟨x.2, by rwa [← hxp, Prod.mk.eta]⟩
      rw [this] at hnex
      exact Bool.noConfusion hnex
    · have hcl := hwf.2 x hx p ((List.mem_inits _ _).2 hpx)
        (fun h => hxp h.symm) hp
      have : pexists fs p = true := pexists_iff.2 ⟨Entry.dir, hcl⟩
      rw [this] at hnex
      exact Bool.noConfusion hnex

/-- The asset-file write at the end of `Bert.save`, applied to a
directory-plus-bundle layout whose leading part has nothing at or below
the target path, appends the side file. -/
theorem writeFile_bundle {fs' : Fs} {p : FPath}
    {bundle : List (FPath × Entry)} (src : String)
    (hfs' : ∀ x ∈ fs', ¬ p <+: x.1)
    (hb1 : (["assets"], Entry.dir) ∈ bundle)
    (hb3 : ∀ r ∈ bundle, r.1 ≠ ["assets", sourceModelAssetFile]) :
    writeFile (fs' ++ [(p, Entry.dir)] ++ bundle.map (fun r => (p ++ r.1, r.2)))
        (p ++ ["assets", sourceModelAssetFile]) (src ++ "\n")
      = .ok (fs' ++ [(p, Entry.dir)] ++ bundle.map (fun r => (p ++ r.1, r.2))
          ++ [(p ++ ["assets", sourceModelAssetFile],
               Entry.file (src ++ "\n"))]) := by
  set mapped := bundle.map (fun r => (p ++ r.1, r.2)) with hmap
  set A := fs' ++ [(p, Entry.dir)] ++ mapped with hA
  have hassetpath : p ++ ["assets", sourceModelAssetFile]
      = (p ++ ["assets"]) ++ [sourceModelAssetFile] := by simp
  have hparent : parentOf (p ++ ["assets", sourceModelAssetFile])
      = p ++ ["assets"] := by
    rw [hassetpath]
    unfold parentOf
    exact List.dropLast_concat
  have hpdir : isDirAt A (p ++ ["assets"]) = true := by
    refine isDirAt_iff.2 ?_
    rw [hA]
    refine List.mem_append.2 (Or.inr ?_)
    rw [hmap]
    exact List.mem_map.2 ⟨(["assets"], Entry.dir), hb1, rfl⟩
  have hnex : pexists A (p ++ ["assets", sourceModelAssetFile]) = false := by
    rw [← Bool.not_eq_true, pexists_iff]
    rintro ⟨en, hen⟩
    rw [hA] at hen
    rcases List.mem_append.1 hen with hen1 | hen2
    · rcases List.mem_append.1 hen1 with hen3 | hen4
      · exact hfs' _ hen3 (List.prefix_append _ _)
      · have h5 := List.mem_singleton.1 hen4
        have h6 : p ++ ["assets", sourceModelAssetFile] = p :=
          congrArg Prod.fst h5
        have h7 := congrArg List.length h6
        simp at h7
    · rw [hmap] at hen2
      obtain ⟨r, hr, hreq⟩ := List.mem_map.1 hen2
      have heq : p ++ r.1 = p ++ ["assets", sourceModelAssetFile] :=
        congrArg Prod.fst hreq
      have := congrArg (List.drop p.length) heq
      rw [List.drop_left, List.drop_left] at this
      exact hb3 r hr this
  unfold writeFile
  rw [hparent, hpdir, not_pexists_isDirAt hnex, hnex]
  simp only [Bool.not_false, Bool.and_true, if_true, Bool.false_eq_true,
    if_false]

/-- A successful `Bert.save` (overwrite on, or fresh target) produces
exactly `savedFs`: the untouched entries outside the target cone, the new
saved-model directory, the bundle entries, and the source-model asset
file. -/
theorem save_ok {G V Tok : Type} (e : Engine G V Tok) (b : Bert G V Tok)
    {fs : Fs} {p : FPath} {src : String} (overwrite : Bool)
    (hwf : Wf fs) (hp : p ≠ [])
    (hsrc : b.source_model = some src)
    (hb1 : (["assets"], Entry.dir) ∈ Bert.bundleEntries e b)
    (hb3 : ∀ r ∈ Bert.bundleEntries e b, r.1 ≠ ["assets", sourceModelAssetFile])
    (hov : overwrite = true ∨ pexists fs p = false) :
    Bert.save e b fs p overwrite
      = .ok (savedFs fs p (Bert.bundleEntries e b) src) := by
  have hkeep : ∀ x ∈ fs.filter (fun x => !(p.isPrefixOf x.1)), ¬ p <+: x.1 := by
    intro x hx hpre
    obtain ⟨_, hk⟩ := List.mem_filter.1 hx
    rw [List.isPrefixOf_iff_prefix.2 hpre] at hk
    exact Bool.noConfusion hk
  have htail := writeFile_bundle src hkeep hb1 hb3
  unfold Bert.save
  cases hex : pexists fs p
  · simp only [hex, Bool.false_eq_true, if_false, pure_bind, hsrc]
    rw [← filter_no_cone hwf hp hex, htail]
    unfold savedFs
    simp [List.append_assoc]
  · rcases hov with rfl | hov2
    · simp only [hex, if_true, Bool.not_true, Bool.false_eq_true, if_false]
      rw [delete_ok hwf hp hex, exbind_ok]
      simp only [hsrc]
      rw [htail]
      unfold savedFs
      simp [List.append_assoc]
    · rw [hex] at hov2
      exact Bool.noConfusion hov2

/-- C5: saving with overwrite enabled to an existing path (file, empty or
non-empty directory) first deletes the existing content recursively, then
writes the serialized bundle plus the side file recording the hub
identifier; the resulting filesystem is `savedFs`, whose portion at or
below the target is exactly the new bundle plus side file — independent of
whatever was there before — so the prior content is entirely replaced. -/
theorem claim_C5 {G V Tok : Type} (e : Engine G V Tok) (b : Bert G V Tok)
    (fs : Fs) (p : FPath) (src : String)
    (hwf : Wf fs) (hp : p ≠ []) (_hex : pexists fs p = true)
    (hsrc : b.source_model = some src)
    (hb1 : (["assets"], Entry.dir) ∈ Bert.bundleEntries e b)
    (hb3 : ∀ r ∈ Bert.bundleEntries e b,
      r.1 ≠ ["assets", sourceModelAssetFile]) :
    Bert.save e b fs p true
        = .ok (savedFs fs p (Bert.bundleEntries e b) src) ∧
    (savedFs fs p (Bert.bundleEntries e b) src).filter
        (fun x => p.isPrefixOf x.1)
      = [(p, Entry.dir)]
        ++ (Bert.bundleEntries e b).map (fun r => (p ++ r.1, r.2))
        ++ [(p ++ ["assets", sourceModelAssetFile],
             Entry.file (src ++ "\n"))] := by
  refine ⟨save_ok e b true hwf hp hsrc hb1 hb3 (Or.inl rfl), ?_⟩
  unfold savedFs
  rw [List.filter_append, List.filter_append, List.filter_append]
  have h1 : (fs.filter (fun x => !(p.isPrefixOf x.1))).filter
      (fun x => p.isPrefixOf x.1) = [] := by
    rw [List.filter_eq_nil_iff]
    intro x hx hpre
    obtain ⟨_, hkeep⟩ := List.mem_filter.1 hx
    rw [hpre] at hkeep
    exact Bool.noConfusion hkeep
  have h2 : List.filter (fun x => p.isPrefixOf x.1) [(p, Entry.dir)]
      = [(p, Entry.dir)] := by
    simp [List.isPrefixOf_iff_prefix.2 List.prefix_rfl]
  have h3 : ((Bert.bundleEntries e b).map (fun r => (p ++ r.1, r.2))).filter
      (fun x => p.isPrefixOf x.1)
      = (Bert.bundleEntries e b).map (fun r => (p ++ r.1, r.2)) := by
    apply List.filter_eq_self.2
    intro x hx
    obtain ⟨r, _, rfl⟩ := List.mem_map.1 hx
    exact List.isPrefixOf_iff_prefix.2 (List.prefix_append _ _)
  have h4 : List.filter (fun x => p.isPrefixOf x.1)
      [(p ++ ["assets", sourceModelAssetFile], Entry.file (src ++ "\n"))]
      = [(p ++ ["assets", sourceModelAssetFile], Entry.file (src ++ "\n"))] := by
    simp [List.isPrefixOf_iff_prefix.2 (List.prefix_append _ _)]
  rw [h1, h2, h3, h4]
  simp

/-- Witness for C5: overwriting a concrete non-empty directory. -/
theorem claim_C5_witness :
    Bert.save engine0 (Bert.make engine0 "u" 4)
        [(["m"], Entry.dir), (["m", "old"], Entry.file "junk")] ["m"] true
      = .ok (savedFs [(["m"], Entry.dir), (["m", "old"], Entry.file "junk")]
          ["m"] (Bert.bundleEntries engine0 (Bert.make engine0 "u" 4)) "u") ∧
    (savedFs [(["m"], Entry.dir), (["m", "old"], Entry.file "junk")] ["m"]
        (Bert.bundleEntries engine0 (Bert.make engine0 "u" 4)) "u").filter
        (fun x => List.isPrefixOf ["m"] x.1)
      = [(["m"], Entry.dir)]
        ++ (Bert.bundleEntries engine0 (Bert.make engine0 "u" 4)).map
            (fun r => (["m"] ++ r.1, r.2))
        ++ [(["m"] ++ ["assets", sourceModelAssetFile],
             Entry.file ("u" ++ "\n"))] :=
  claim_C5 engine0 (Bert.make engine0 "u" 4)
    [(["m"], Entry.dir), (["m", "old"], Entry.file "junk")] ["m"] "u"
    (by decide) (by decide) (by decide) rfl (by decide)
    (by decide)

/-! ## String lemmas: the side-file round trip -/

theorem readline_no_newline {l : List Char} (h : '\n' ∉ l) :
    readlineList (l ++ ['\n']) = l ++ ['\n'] := by
  induction l with
  | nil => rfl
  | cons c rest ihr =>
    have hc : ¬ c = '\n' := fun hh => h (hh ▸ List.mem_cons_self c rest)
    simp only [List.cons_append, readlineList, if_neg hc, List.append_eq]
    rw [ihr (fun hm => h (List.mem_cons_of_mem c hm))]

theorem translate_no_cr {l : List Char} (h : '\r' ∉ l) :
    translateNewlines l = l := by
  induction l with
  | nil => rfl
  | cons c rest ihr =>
    have hc : ¬ c = '\r' := fun hh => h (hh ▸ List.mem_cons_self c rest)
    have hrest := ihr (fun hm => h (List.mem_cons_of_mem c hm))
    cases rest with
    | nil => simp [translateNewlines, hc]
    | cons d rest2 =>
      simp only [translateNewlines, if_neg hc]
      rw [hrest]

theorem universalNewlines_clean {s : String} (hcr : '\r' ∉ s.toList) :
    universalNewlines (s ++ "\n") = s ++ "\n" := by
  unfold universalNewlines
  have hsl : (s ++ "\n").toList = s.toList ++ ['\n'] := by
    show (s ++ "\n").data = s.data ++ ['\n']
    rw [String.data_append]
  have hno : '\r' ∉ (s ++ "\n").toList := by
    rw [hsl]
    intro hm
    rcases List.mem_append.1 hm with h1 | h2
    · exact hcr h1
    · rw [List.mem_singleton] at h2
      exact absurd h2 (by decide)
  rw [translate_no_cr hno]
  cases s ++ "\n"
  rfl

theorem pyStrip_fix {l : List Char} (h : pyStripList l = l) :
    l.dropWhile isPyWhitespace = l ∧
    l.reverse.dropWhile isPyWhitespace = l.reverse := by
  unfold pyStripList at h
  have hlen := congrArg List.length h
  rw [List.length_reverse] at hlen
  have h1 : ((l.dropWhile isPyWhitespace).reverse.dropWhile
      isPyWhitespace).length ≤ (l.dropWhile isPyWhitespace).length := by
    have := (List.dropWhile_suffix (l := (l.dropWhile isPyWhitespace).reverse)
      isPyWhitespace).length_le
    rwa [List.length_reverse] at this
  have h2 : (l.dropWhile isPyWhitespace).length ≤ l.length :=
    (List.dropWhile_suffix isPyWhitespace).length_le
  have hAl : (l.dropWhile isPyWhitespace).length = l.length := by omega
  have hA : l.dropWhile isPyWhitespace = l :=
    (List.dropWhile_suffix isPyWhitespace).eq_of_length hAl
  refine ⟨hA, ?_⟩
  have hBl : (l.reverse.dropWhile isPyWhitespace).length
      = l.reverse.length := by
    rw [List.length_reverse]
    rw [hA] at hlen h1
    omega
  exact (List.dropWhile_suffix isPyWhitespace).eq_of_length hBl

theorem isPyWhitespace_newline : isPyWhitespace '\n' = true := by decide

theorem strip_list_clean {l : List Char} (hnl : '\n' ∉ l)
    (hfix : pyStripList l = l) : pyStripList (l ++ ['\n']) = l := by
  obtain ⟨hA, hB⟩ := pyStrip_fix hfix
  cases l with
  | nil => decide
  | cons c rest =>
    have hc : isPyWhitespace c = false := by
      by_contra hcc
      rw [Bool.not_eq_false] at hcc
      rw [List.dropWhile_cons, if_pos hcc] at hA
      have := congrArg List.length hA
      have h2 := (List.dropWhile_suffix (l := rest) isPyWhitespace).length_le
      simp at this
      omega
    unfold pyStripList
    rw [List.cons_append, List.dropWhile_cons, if_neg (by simp [hc])]
    rw [List.reverse_cons, List.reverse_append, List.reverse_cons]
    simp only [List.reverse_nil, List.nil_append, List.cons_append]
    rw [List.dropWhile_cons, if_pos isPyWhitespace_newline]
    have hr : rest.reverse ++ [c] = (c :: rest).reverse := by
      rw [List.reverse_cons]
    rw [hr, hB, List.reverse_reverse]

theorem readline_clean {s : String} (hnl : '\n' ∉ s.toList) :
    readline (s ++ "\n") = s ++ "\n" := by
  unfold readline
  have hsl : (s ++ "\n").toList = s.toList ++ ['\n'] := by
    show (s ++ "\n").data = s.data ++ ['\n']
    rw [String.data_append]
  rw [hsl, readline_no_newline hnl, ← hsl]
  cases s ++ "\n"
  rfl

theorem pyStrip_append_newline {s : String} (hnl : '\n' ∉ s.toList)
    (hfix : pyStrip s = s) : pyStrip (s ++ "\n") = s := by
  have hfixl : pyStripList s.toList = s.toList := congrArg String.toList hfix
  have hl := strip_list_clean hnl hfixl
  unfold pyStrip
  have hsl : (s ++ "\n").toList = s.toList ++ ['\n'] := by
    show (s ++ "\n").data = s.data ++ ['\n']
    rw [String.data_append]
  rw [hsl, hl]
  cases s
  rfl

/-! ## Reading the side file back -/

theorem find_append_right {α : Type} (l₁ l₂ : List α) (pr : α → Bool)
    (h : ∀ x ∈ l₁, pr x = false) :
    (l₁ ++ l₂).find? pr = l₂.find? pr := by
  induction l₁ with
  | nil => rfl
  | cons a l ihl =>
    rw [List.cons_append, List.find?_cons,
      h a (List.mem_cons_self a l)]
    exact ihl (fun x hx => h x (List.mem_cons_of_mem a hx))

theorem readFileAt_savedFs {fs : Fs} {p : FPath}
    {bundle : List (FPath × Entry)} {src : String}
    (hb3 : ∀ r ∈ bundle, r.1 ≠ ["assets", sourceModelAssetFile]) :
    readFileAt (savedFs fs p bundle src)
        (p ++ ["assets", sourceModelAssetFile]) = .ok (src ++ "\n") := by
  unfold readFileAt savedFs
  rw [find_append_right]
  · simp
  · intro x hx
    rw [decide_eq_false_iff_not]
    rcases List.mem_append.1 hx with hx1 | hx2
    · rcases List.mem_append.1 hx1 with hx3 | hx4
      · obtain ⟨_, hk⟩ := List.mem_filter.1 hx3
        intro hh
        rw [hh, List.isPrefixOf_iff_prefix.2 (List.prefix_append _ _)] at hk
        exact Bool.noConfusion hk
      · have h5 := List.mem_singleton.1 hx4
        rw [h5]
        intro hh
        have := congrArg List.length hh
        simp at this
    · obtain ⟨r, hr, hreq⟩ := List.mem_map.1 hx2
      rw [← hreq]
      intro hh
      have := congrArg (List.drop p.length) hh
      rw [List.drop_left, List.drop_left] at this
      exact hb3 r hr this

/-- After a save, `Bert.load`'s side-file read (text-mode newline
translation + readline + strip) recovers a source identifier exactly when
it is free of `'\n'` and `'\r'` and fixed by `strip()`. -/
theorem loadSourceUrl_savedFs {fs : Fs} {p : FPath}
    {bundle : List (FPath × Entry)} {src : String}
    (hb3 : ∀ r ∈ bundle, r.1 ≠ ["assets", sourceModelAssetFile])
    (hnl : '\n' ∉ src.toList) (hcr : '\r' ∉ src.toList)
    (hfix : pyStrip src = src) :
    loadSourceUrl (savedFs fs p bundle src) p = .ok src := by
  unfold loadSourceUrl
  rw [readFileAt_savedFs hb3, exbind_ok, universalNewlines_clean hcr,
    readline_clean hnl, pyStrip_append_newline hnl hfix]
  rfl

/-- Counterexample to C6 as stated: the handle constructed from the
non-empty source identifier `" a"` saves successfully, but the side-file
read performed by load recovers `"a"`, not `" a"` — `strip()` discards the
leading space along with the newline that save appended. -/
theorem claim_C6_cx :
    Bert.save engine0 (Bert.make engine0 " a" 4) [] ["m"] true
      = Except.ok
          [(["m"], Entry.dir), (["m", "assets"], Entry.dir),
           (["m", "saved_model.pb"], Entry.file "gggg"),
           (["m", "assets", "source-model.txt"], Entry.file " a\n")] ∧
    loadSourceUrl
        [(["m"], Entry.dir), (["m", "assets"], Entry.dir),
         (["m", "saved_model.pb"], Entry.file "gggg"),
         (["m", "assets", "source-model.txt"], Entry.file " a\n")] ["m"]
      = Except.ok "a" ∧
    (Bert.make engine0 " a" 4).source_model = some " a" ∧
    (" a" : String) ≠ "a" := by
  refine ⟨rfl, rfl, rfl, by decide⟩

/-- C6 amended: after a successful save, load's side-file read recovers
the Unicode-whitespace-stripped first line of the newline-translated text
save wrote; this equals the originating hub identifier exactly whenever
that identifier contains no `'\n'`, no `'\r'` (text-mode reading
translates a lone carriage return to a newline before the split), and is
fixed by `strip()` (no leading or trailing Unicode whitespace) — the
original claim's "for every non-empty string" fails, e.g. for `" a"`. -/
theorem claim_C6_amended {G V Tok : Type} (e : Engine G V Tok)
    (b : Bert G V Tok) (fs : Fs) (p : FPath) (src : String) (overwrite : Bool)
    (hwf : Wf fs) (hp : p ≠ [])
    (hsrc : b.source_model = some src)
    (hb1 : (["assets"], Entry.dir) ∈ Bert.bundleEntries e b)
    (hb3 : ∀ r ∈ Bert.bundleEntries e b,
      r.1 ≠ ["assets", sourceModelAssetFile])
    (hov : overwrite = true ∨ pexists fs p = false)
    (hnl : '\n' ∉ src.toList) (hcr : '\r' ∉ src.toList)
    (hfix : pyStrip src = src) :
    ∃ fs', Bert.save e b fs p overwrite = .ok fs' ∧
      loadSourceUrl fs' p = .ok src :=
  ⟨savedFs fs p (Bert.bundleEntries e b) src,
    save_ok e b overwrite hwf hp hsrc hb1 hb3 hov,
    loadSourceUrl_savedFs hb3 hnl hcr hfix⟩

/-- Witness for C6 amended at a clean concrete identifier. -/
theorem claim_C6_witness :
    ∃ fs', Bert.save engine0 (Bert.make engine0 "u" 4) [] ["m"] true
        = .ok fs' ∧ loadSourceUrl fs' ["m"] = .ok "u" :=
  claim_C6_amended engine0 (Bert.make engine0 "u" 4) [] ["m"] "u" true
    (by decide) (by decide) rfl (by decide) (by decide) (Or.inr rfl)
    (by decide) (by decide) (by decide)

/-- What `tf.saved_model.load` reads back from a directory `Bert.save`
produced: the bundle entries followed by the side file. -/
theorem relEntries_savedFs {fs : Fs} {p : FPath}
    {bundle : List (FPath × Entry)} {src : String}
    (hb2 : ∀ r ∈ bundle, r.1 ≠ []) :
    relEntries (savedFs fs p bundle src) p
      = bundle
        ++ [(["assets", sourceModelAssetFile], Entry.file (src ++ "\n"))] := by
  unfold relEntries savedFs
  rw [List.filter_append, List.filter_append, List.filter_append]
  have h1 : (fs.filter (fun x => !(p.isPrefixOf x.1))).filter
      (fun x => p.isPrefixOf x.1 && x.1 ≠ p) = [] := by
    rw [List.filter_eq_nil_iff]
    intro x hx hcond
    obtain ⟨_, hk⟩ := List.mem_filter.1 hx
    rw [Bool.and_eq_true] at hcond
    rw [hcond.1] at hk
    exact Bool.noConfusion hk
  have h2 : List.filter (fun x => p.isPrefixOf x.1 && x.1 ≠ p)
      [(p, Entry.dir)] = [] := by
    simp
  have h3 : (bundle.map (fun r => (p ++ r.1, r.2))).filter
      (fun x => p.isPrefixOf x.1 && x.1 ≠ p)
      = bundle.map (fun r => (p ++ r.1, r.2)) := by
    apply List.filter_eq_self.2
    intro x hx
    obtain ⟨r, hr, rfl⟩ := List.mem_map.1 hx
    rw [Bool.and_eq_true]
    refine ⟨List.isPrefixOf_iff_prefix.2 (List.prefix_append _ _), ?_⟩
    rw [decide_eq_true_eq]
    intro hh
    have := congrArg (List.drop p.length) hh
    rw [List.drop_left, List.drop_length] at this
    exact hb2 r hr this
  have h4 : List.filter (fun x => p.isPrefixOf x.1 && x.1 ≠ p)
      [(p ++ ["assets", sourceModelAssetFile], Entry.file (src ++ "\n"))]
      = [(p ++ ["assets", sourceModelAssetFile],
          Entry.file (src ++ "\n"))] := by
    have hne : p ++ ["assets", sourceModelAssetFile] ≠ p := by
      intro hh
      have := congrArg List.length hh
      simp at this
    simp [List.isPrefixOf_iff_prefix.2 (List.prefix_append _ _), hne]
  rw [h1, h2, h3, h4]
  simp only [List.nil_append, List.map_append, List.map_map]
  congr 1
  · refine List.map_congr_left ?_ |>.trans (List.map_id _)
    intro r _
    show ((p ++ r.1).drop p.length, r.2) = r
    rw [List.drop_left]
  · simp [List.drop_left]

/-- Counterexample to C3 as stated: a handle whose source identifier is
`" a"` (leading space) saves and reloads successfully, but the reloaded
handle re-derives its tokenizer from the stripped identifier `"a"`, and
embedding the same input yields different values. -/
theorem claim_C3_cx :
    Bert.save engine0 (Bert.make engine0 " a" 4) [] ["m"] true
      = Except.ok
          [(["m"], Entry.dir), (["m", "assets"], Entry.dir),
           (["m", "saved_model.pb"], Entry.file "gggg"),
           (["m", "assets", "source-model.txt"], Entry.file " a\n")] ∧
    Bert.load engine0
        [(["m"], Entry.dir), (["m", "assets"], Entry.dir),
         (["m", "saved_model.pb"], Entry.file "gggg"),
         (["m", "assets", "source-model.txt"], Entry.file " a\n")] ["m"]
      = Except.ok { source_model := none, graph := 4, session := none,
                    tokenizer := "a", max_sequence_length := 4 } ∧
    Bert.embed engine0
        { source_model := none, graph := 4, session := none,
          tokenizer := "a", max_sequence_length := 4 }
        (Sequences.single "x") false
      ≠ Bert.embed engine0 (Bert.make engine0 " a" 4)
        (Sequences.single "x") false := by
  refine ⟨rfl, rfl, by decide⟩

/-- C3 amended: the save-then-load round trip preserves embeddings for
every well-formed handle — tokenizer derived from its recorded source,
maximum sequence length matching its graph, session (if any) freshly
initialized — whose source identifier contains no `'\n'`, no `'\r'` (a
lone carriage return is translated to a newline by the text-mode read and
truncates the recovered identifier), and no leading or trailing Unicode
whitespace (otherwise the side-file round trip alters it; see the
counterexample), assuming the engine's bundle deserialization inverts its
serialization. -/
theorem claim_C3_amended {G V Tok : Type} (e : Engine G V Tok)
    (b : Bert G V Tok) (fs : Fs) (p : FPath) (src : String) (overwrite : Bool)
    (hwf : Wf fs) (hp : p ≠ [])
    (hsrc : b.source_model = some src)
    (hb1 : (["assets"], Entry.dir) ∈ Bert.bundleEntries e b)
    (hb2 : ∀ r ∈ Bert.bundleEntries e b, r.1 ≠ [])
    (hb3 : ∀ r ∈ Bert.bundleEntries e b,
      r.1 ≠ ["assets", sourceModelAssetFile])
    (hov : overwrite = true ∨ pexists fs p = false)
    (hnl : '\n' ∉ src.toList) (hcr : '\r' ∉ src.toList)
    (hfix : pyStrip src = src)
    (htok : b.tokenizer = e.hubTok src)
    (hml : b.max_sequence_length = e.maxLenOf b.graph)
    (hsess : b.session = none ∨ b.session = some (e.initVars b.graph))
    (hdeser : e.deserialize (Bert.bundleEntries e b
        ++ [(["assets", sourceModelAssetFile], Entry.file (src ++ "\n"))])
      = some b.graph) :
    ∃ fs' b2, Bert.save e b fs p overwrite = .ok fs' ∧
      Bert.load e fs' p = .ok b2 ∧
      ∀ seqs pt, Bert.embed e b2 seqs pt = Bert.embed e b seqs pt := by
  refine ⟨savedFs fs p (Bert.bundleEntries e b) src,
    { source_model := none, graph := b.graph, session := none,
      tokenizer := e.hubTok src, max_sequence_length := e.maxLenOf b.graph },
    save_ok e b overwrite hwf hp hsrc hb1 hb3 hov, ?_, ?_⟩
  · unfold Bert.load
    rw [relEntries_savedFs hb2, hdeser,
      loadSourceUrl_savedFs hb3 hnl hcr hfix]
    rfl
  · intro seqs pt
    rcases hsess with h | h <;>
      · unfold Bert.embed
        rw [h, ← htok, ← hml]

/-- Witness for C3 amended at a clean concrete source identifier. -/
theorem claim_C3_witness :
    ∃ fs' b2, Bert.save engine0 (Bert.make engine0 "u" 4) [] ["m"] true
        = .ok fs' ∧
      Bert.load engine0 fs' ["m"] = .ok b2 ∧
      ∀ seqs pt, Bert.embed engine0 b2 seqs pt
        = Bert.embed engine0 (Bert.make engine0 "u" 4) seqs pt :=
  claim_C3_amended engine0 (Bert.make engine0 "u" 4) [] ["m"] "u" true
    (by decide) (by decide) rfl (by decide) (by decide) (by decide)
    (Or.inr rfl) (by decide) (by decide) (by decide) rfl rfl (Or.inl rfl) rfl

end EasyBert
